import Mathlib

/-!
Verification of the Diab compiler-argument layer of sccache
(src/src/compiler/diab.rs).

Tokens (Rust OsString) are modelled as lists of characters.  The filesystem
needed by the indirect-argument expander is modelled as a function from a
path to an optional file content (none = the file cannot be opened or read
as text).  The unbounded recursion of the expander is modelled with an
explicit fuel parameter: a result of none means the fuel was exhausted.

The generic argument-classification engine (crate::compiler::args), the
extension-to-language table (crate::compiler::c) and the result types are
declared but not defined under src/; they are modelled from the spec,
constrained by the unit tests inside src/src/compiler/diab.rs, and carry a
doc comment starting with: Modelled from the spec.
-/

namespace Diab

abbrev Str : Type := List Char

def str (s : String) : Str := s.data

/-- The double-quote character, written numerically. -/
def quoteChar : Char := Char.ofNat 34

/-- The single-quote character, written numerically. -/
def squoteChar : Char := Char.ofNat 39

/-- Whitespace splitting as used by Rust str::split_whitespace: split at
whitespace characters, dropping empty pieces.  The accumulator holds the
current piece in reverse order. -/
def splitWhitespaceAux : Str → Str → List Str
  | acc, [] => if acc = [] then [] else [acc.reverse]
  | acc, c :: rest =>
    if c.isWhitespace then
      (if acc = [] then splitWhitespaceAux [] rest
       else acc.reverse :: splitWhitespaceAux [] rest)
    else splitWhitespaceAux (c :: acc) rest

def splitWhitespace (s : Str) : List Str := splitWhitespaceAux [] s

/-- Rust PathBuf::join: an absolute right operand replaces the base. -/
def joinPath (cwd p : Str) : Str :=
  if p.head? = some '/' then p else cwd ++ '/' :: p

/-- The value of a -@name token is exempt from expansion when the name
starts with E, O or @ (diab.rs line 357): these spell compiler options,
not indirections. -/
def atExempt (name : Str) : Bool :=
  (str "E").isPrefixOf name || (str "O").isPrefixOf name || (str "@").isPrefixOf name

/-- Contents containing a single or double quote are not expanded
(diab.rs line 386). -/
def hasQuote (contents : Str) : Bool :=
  contents.contains quoteChar || contents.contains squoteChar

/-- The indirect-argument expander ExpandAtArgs (diab.rs lines 325-393),
unrolled into the full token sequence it yields.  The explicit pending
token stack of the Rust iterator is the list argument (head = next pop).
A -@name token whose name is not exempt, whose file is readable and whose
contents are quote-free is replaced by the whitespace-split contents,
pushed in front for recursive processing; every exception case passes the
token through unchanged.  fuel bounds the unbounded recursion; none means
fuel ran out. -/
def expandAll (fs : Str → Option Str) (cwd : Str) : Nat → List Str → Option (List Str)
  | 0, _ => none
  | _ + 1, [] => some []
  | n + 1, arg :: rest =>
    if (str "-@").isPrefixOf arg then
      -- split_prefix "-@" always succeeds here; value is the name
      let value := arg.drop 2
      if atExempt value then
        (expandAll fs cwd n rest).map (arg :: ·)
      else
        match fs (joinPath cwd value) with
        | none => (expandAll fs cwd n rest).map (arg :: ·)
        | some contents =>
          if hasQuote contents then
            (expandAll fs cwd n rest).map (arg :: ·)
          else
            expandAll fs cwd n (splitWhitespace contents ++ rest)
    else
      (expandAll fs cwd n rest).map (arg :: ·)

/-- The ArgData of diab.rs lines 76-85: semantic tags for classified
arguments of the Diab family. -/
inductive ArgData
  | DoCompilation
  | Output (p : Str)
  | PassThrough (s : Str)
  | PreprocessorArgumentFlag
  | PreprocessorArgument (s : Str)
  | PreprocessorArgumentPath (p : Str)
  | TooHardFlag
  | TooHard (s : Str)
  deriving DecidableEq, Repr

/-- Modelled from the spec: the attachment styles of crate::compiler::args
(declared in diab.rs line 17 but defined outside src/).  A value is a
separate token, concatenated after an optional separator character, or
flexibly either; the CanBe forms record which fixed form was observed. -/
inductive ArgDisposition
  | Separated
  | Concatenated (d : Option Char)
  | CanBeSeparated (d : Option Char)
  | CanBeConcatenated (d : Option Char)
  deriving DecidableEq, Repr

/-- Modelled from the spec (section 4.4): the canonical spelling chosen by
normalization. -/
inductive NormalizedDisposition
  | Separated
  | Concatenated
  deriving DecidableEq, Repr

/-- Modelled from the spec (section 3): one entry of the argument
specification table: flag text plus either flag-only arity or a value
taking arity with a declared attachment style and a tag constructor. -/
inductive ArgInfo
  | flag (s : Str) (d : ArgData)
  | takeArg (s : Str) (disp : ArgDisposition) (mk : Str → ArgData)

/-- Modelled from the spec (section 3): a classified argument, one of bare
positional token, unrecognized flag, flag with no value, or flag with an
attached value recording the attachment style actually observed. -/
inductive Argument
  | Raw (s : Str)
  | UnknownFlag (s : Str)
  | Flag (s : Str) (d : ArgData)
  | WithValue (s : Str) (d : ArgData) (disp : ArgDisposition)
  deriving DecidableEq, Repr

/-- Modelled from the spec: extraction of the attached value carried by a
tag (IntoArg::into_arg_os_string); tags with no payload give the empty
token. -/
def ArgData.into_arg_os_string : ArgData → Str
  | .Output p => p
  | .PassThrough s => s
  | .PreprocessorArgument s => s
  | .PreprocessorArgumentPath p => p
  | .TooHard s => s
  | .DoCompilation => []
  | .PreprocessorArgumentFlag => []
  | .TooHardFlag => []

/-- Modelled from the spec: the flag text of a classified argument; Raw and
UnknownFlag have none (diab.rs line 185 expects it only on Flag/WithValue). -/
def Argument.flag_str : Argument → Option Str
  | .Flag s _ => some s
  | .WithValue s _ _ => some s
  | .Raw _ => none
  | .UnknownFlag _ => none

/-- Modelled from the spec: the semantic tag of a classified argument. -/
def Argument.get_data : Argument → Option ArgData
  | .Flag _ d => some d
  | .WithValue _ d _ => some d
  | .Raw _ => none
  | .UnknownFlag _ => none

/-- The argument specification table ARGS of diab.rs lines 89-131, in
declaration order. -/
def ARGS : List ArgInfo := [
  .flag (str "-") .TooHardFlag,
  .flag (str "-##") .TooHardFlag,
  .flag (str "-###") .TooHardFlag,
  .takeArg (str "-@") (.Concatenated none) .TooHard,
  .takeArg (str "-D") (.CanBeSeparated none) .PreprocessorArgument,
  .flag (str "-E") .TooHardFlag,
  .takeArg (str "-I") (.CanBeSeparated none) .PreprocessorArgumentPath,
  .takeArg (str "-L") .Separated .PassThrough,
  .flag (str "-P") .TooHardFlag,
  .flag (str "-S") .TooHardFlag,
  .takeArg (str "-U") (.CanBeSeparated none) .PreprocessorArgument,
  .flag (str "-V") .TooHardFlag,
  .flag (str "-VV") .TooHardFlag,
  .takeArg (str "-W") .Separated .PassThrough,
  .flag (str "-Xmake-dependency") .PreprocessorArgumentFlag,
  .flag (str "-Xmake-dependency-canonicalize-path-off") .PreprocessorArgumentFlag,
  .takeArg (str "-Xmake-dependency-savefile") (.Concatenated (some '=')) .PreprocessorArgumentPath,
  .takeArg (str "-Xmake-dependency-target") (.Concatenated (some '=')) .PreprocessorArgument,
  .flag (str "-c") .DoCompilation,
  .takeArg (str "-include") (.CanBeSeparated none) .PreprocessorArgumentPath,
  .takeArg (str "-l") .Separated .PassThrough,
  .takeArg (str "-o") .Separated .Output,
  .takeArg (str "-t") .Separated .PassThrough ]

def ArgInfo.flagOf : ArgInfo → Str
  | .flag s _ => s
  | .takeArg s _ _ => s

/-- The flag texts of the declared table, in declaration order. -/
def flagTexts : List Str := ARGS.map ArgInfo.flagOf

/-- a is a proper prefix of b. -/
def properPrefixOf (a b : Str) : Bool := !(a == b) && a.isPrefixOf b

/-- The property claimed by C2: whenever one flag text is a proper prefix
of another, the longer one appears earlier in the table. -/
def claimC2 : Prop :=
  ∀ i j : Fin flagTexts.length,
    properPrefixOf (flagTexts.get i) (flagTexts.get j) = true → j < i

/-- Modelled from the spec (section 4.2): a token is treated as a flag when
it starts with a dash; otherwise it is a bare positional argument. -/
def flagLike : Str → Bool
  | c :: _ => c == '-'
  | [] => false

/-- Modelled from the spec (section 4.2): whether a spec matches a token.
A flag-only spec and a separated value spec require the exact flag text; a
spec whose value may be concatenated matches the exact flag text or any
strict extension of it; concatenated with a declared separator requires the
separator character immediately after the flag text, else no match. -/
def ArgInfo.matchesTok : ArgInfo → Str → Bool
  | .flag s _, t => t == s
  | .takeArg s .Separated _, t => t == s
  | .takeArg s (.CanBeSeparated none) _, t => s.isPrefixOf t
  | .takeArg s (.CanBeSeparated (some c)) _, t =>
      t == s || (s.isPrefixOf t && (t.drop s.length).head? == some c)
  | .takeArg s (.CanBeConcatenated none) _, t => s.isPrefixOf t
  | .takeArg s (.CanBeConcatenated (some c)) _, t =>
      t == s || (s.isPrefixOf t && (t.drop s.length).head? == some c)
  | .takeArg s (.Concatenated none) _, t => s.isPrefixOf t
  | .takeArg s (.Concatenated (some c)) _, t =>
      s.isPrefixOf t && (t.drop s.length).head? == some c

/-- The attached value carried by a token matched in concatenated form:
the token minus the flag text and, when declared, minus the separator. -/
def valueOf (s : Str) (c : Option Char) (t : Str) : Str :=
  match c with
  | none => t.drop s.length
  | some _ => t.drop (s.length + 1)

/-- Modelled from the spec (sections 3 and 4.2): among the declared,
lexicographically ordered table the matching spec with the longest flag
text wins; under the ordering premise of the spec (first matching spec
wins, overlapping prefixes ordered longest-first) this is a scan of the
declared table in reverse order.  This reproduces the behavior pinned by
the tests in src/src/compiler/diab.rs (a token -include file classifies
as the -include spec, not as -I with value nclude). -/
def findMatchingSpec (t : Str) : Option ArgInfo :=
  ARGS.reverse.find? (fun i => i.matchesTok t)

/-- Modelled from the spec (section 4.2): the token stream matcher
(ArgsIter over the expanded tokens and the spec table), unrolled into the
full sequence of classified arguments it yields.  A separated value spec
consumes the next token and fails when none remains; a flexible spec
observed in separated form records may-be-separated, observed concatenated
records may-be-concatenated; a dash token matching no spec passes through
as an unrecognized flag; a non dash token is a bare positional argument.
A parse failure ends the sequence with an error item. -/
def argsIterAll : List Str → List (Except Str Argument)
  | [] => []
  | t :: rest =>
    if flagLike t then
      match findMatchingSpec t with
      | none => .ok (.UnknownFlag t) :: argsIterAll rest
      | some (.flag s d) => .ok (.Flag s d) :: argsIterAll rest
      | some (.takeArg s .Separated mk) =>
        match rest with
        | [] => [.error (str "unexpected end of arguments")]
        | v :: rest2 => .ok (.WithValue s (mk v) .Separated) :: argsIterAll rest2
      | some (.takeArg s (.CanBeSeparated c) mk) =>
        if t == s then
          match rest with
          | [] => [.error (str "unexpected end of arguments")]
          | v :: rest2 => .ok (.WithValue s (mk v) (.CanBeSeparated c)) :: argsIterAll rest2
        else .ok (.WithValue s (mk (valueOf s c t)) (.CanBeConcatenated c)) :: argsIterAll rest
      | some (.takeArg s (.CanBeConcatenated c) mk) =>
        if t == s then
          match rest with
          | [] => [.error (str "unexpected end of arguments")]
          | v :: rest2 => .ok (.WithValue s (mk v) (.CanBeSeparated c)) :: argsIterAll rest2
        else .ok (.WithValue s (mk (valueOf s c t)) (.CanBeConcatenated c)) :: argsIterAll rest
      | some (.takeArg s (.Concatenated c) mk) =>
        .ok (.WithValue s (mk (valueOf s c t)) (.Concatenated c)) :: argsIterAll rest
    else
      .ok (.Raw t) :: argsIterAll rest

/-- The optional separator put back between flag and value when a
concatenated spelling is produced. -/
def sepMark : Option Char → Str → Str
  | none, v => v
  | some c, v => c :: v

/-- Modelled from the spec (section 4.4): normalization re-spells only an
argument whose observed attachment style is flexible (may-be-separated or
may-be-concatenated); an argument observed in a fixed style keeps its
observed spelling.  Constrained by the src test
test_parse_arguments_preprocessor_args, where the fixed concatenated
-Xmake-dependency-savefile=bar stays one token. -/
def Argument.normalize (arg : Argument) (nd : NormalizedDisposition) : Argument :=
  match arg with
  | .WithValue s d (.CanBeSeparated c) =>
    (match nd with
     | .Separated => .WithValue s d .Separated
     | .Concatenated => .WithValue s d (.Concatenated c))
  | .WithValue s d (.CanBeConcatenated c) =>
    (match nd with
     | .Separated => .WithValue s d .Separated
     | .Concatenated => .WithValue s d (.Concatenated c))
  | a => a

/-- Modelled from the spec: serialization of a classified argument back to
tokens (iter_os_strings): a separated value gives two tokens, a
concatenated one gives a single token with the optional separator. -/
def Argument.iter_os_strings : Argument → List Str
  | .Raw s => [s]
  | .UnknownFlag s => [s]
  | .Flag s _ => [s]
  | .WithValue s d .Separated => [s, d.into_arg_os_string]
  | .WithValue s d (.Concatenated c) => [s ++ sepMark c d.into_arg_os_string]
  | .WithValue s d (.CanBeSeparated _) => [s, d.into_arg_os_string]
  | .WithValue s d (.CanBeConcatenated c) => [s ++ sepMark c d.into_arg_os_string]

/-- The normalized disposition chosen by diab.rs lines 220-223: a flag text
of exactly two characters normalizes to concatenated, anything else
(including no flag text) to separated. -/
def normFor (arg : Argument) : NormalizedDisposition :=
  match arg.flag_str with
  | some s => if s.length == 2 then .Concatenated else .Separated
  | none => .Separated

/-- The tokens an argument contributes to its role bucket
(diab.rs line 224: args.extend(arg.normalize(norm).iter_os_strings())). -/
def normalizedTokensOf (arg : Argument) : List Str :=
  (arg.normalize (normFor arg)).iter_os_strings

/-- The observed attachment styles the matcher can record for a declared
spec: a fixed style is observed as itself, a flexible style as
may-be-separated or may-be-concatenated. -/
def observedForms : ArgInfo → List ArgDisposition
  | .flag _ _ => []
  | .takeArg _ .Separated _ => [.Separated]
  | .takeArg _ (.CanBeSeparated c) _ => [.CanBeSeparated c, .CanBeConcatenated c]
  | .takeArg _ (.CanBeConcatenated c) _ => [.CanBeSeparated c, .CanBeConcatenated c]
  | .takeArg _ (.Concatenated c) _ => [.Concatenated c]

/-- The classified argument a spec produces for an observed attachment
style and a value; none when the spec is flag-only or the style cannot be
observed for this spec. -/
def producedArg (i : ArgInfo) (obs : ArgDisposition) (v : Str) : Option Argument :=
  match i with
  | .flag _ _ => none
  | .takeArg s _ mk =>
    if obs ∈ observedForms i then some (.WithValue s (mk v) obs) else none

/-- Re-classify a token list and, when it yields exactly one classified
argument, re-normalize it. -/
def renormClassify (toks : List Str) : Option (List Str) :=
  match argsIterAll toks with
  | [.ok arg] => some (normalizedTokensOf arg)
  | _ => none

/-- Modelled from the spec (section 6): the source languages of the
extension-to-language table needed by the Diab tests. -/
inductive Language
  | C
  | Cxx
  deriving DecidableEq, Repr

/-- The extension of a path: the part of the file name after the last dot,
none when the file name has no dot or only a leading dot
(Rust Path::extension). -/
def extensionOf (p : Str) : Option Str :=
  let revName := p.reverse.takeWhile (fun c => c ≠ '/')
  let revExt := revName.takeWhile (fun c => c ≠ '.')
  match revName.dropWhile (fun c => c ≠ '.') with
  | [] => none
  | [_] => none
  | _ :: _ => some revExt.reverse

/-- Modelled from the spec (section 6): Language::from_file_name, the fixed
mapping from recognized extensions to language tags (crate::compiler::c,
outside src/); the extensions exercised by the src tests are c, cc, cxx,
plus cpp; unmapped extensions are a classification failure. -/
def Language.from_file_name (p : Str) : Option Language :=
  match extensionOf p with
  | some e =>
    if e = str "c" then some .C
    else if e = str "cc" then some .Cxx
    else if e = str "cpp" then some .Cxx
    else if e = str "cxx" then some .Cxx
    else none
  | none => none

/-- Rust Path::with_extension: replace the extension of the file name
(the part after its last dot, a leading dot not counting) by the given
one, appending it when there is none. -/
def withExtension (p ext : Str) : Str :=
  let rev := p.reverse
  let revName := rev.takeWhile (fun c => c ≠ '/')
  let revDir := rev.dropWhile (fun c => c ≠ '/')
  let revStem :=
    match revName.dropWhile (fun c => c ≠ '.') with
    | [] => revName
    | [_] => revName
    | _ :: rest => rest
  revDir.reverse ++ revStem.reverse ++ '.' :: ext

/-- Modelled from the spec (section 3): the structured invocation record
ParsedArguments, restricted to the fields diab.rs populates with non
constant values (depfile, extra_hash_files, msvc_show_includes,
profile_generate and color_mode are constants at lines 255-263). -/
structure ParsedArguments where
  input : Str
  language : Language
  outputs : List (Str × Str)
  preprocessor_args : List Str
  common_args : List Str
  deriving DecidableEq, Repr

/-- Modelled from the spec (section 3): the three way cacheability verdict
CompilerArguments; a cannot cache verdict carries the disqualifying reason
and an optional detail string. -/
inductive CompilerArguments
  | Ok (pa : ParsedArguments)
  | NotCompilation
  | CannotCache (reason : Str) (extra : Option Str)
  deriving DecidableEq, Repr

/-- The mutable state of the classification loop of parse_arguments
(diab.rs lines 150-155), in declaration order. -/
structure LoopState where
  common_args : List Str
  compilation : Bool
  input_arg : Option Str
  multiple_input : Bool
  output_arg : Option Str
  preprocessor_args : List Str
  deriving DecidableEq, Repr

def initialState : LoopState :=
  { common_args := [], compilation := false, input_arg := none,
    multiple_input := false, output_arg := none, preprocessor_args := [] }

/-- The safety check of diab.rs lines 167-181: true when the argument has
an attached value beginning with @ and its observed attachment style is
separated, may-be-concatenated or may-be-separated; a fixed concatenated
style, flags, raw and unknown tokens are exempt. -/
def atValueCheck : Argument → Bool
  | .WithValue _ d .Separated => (str "@").isPrefixOf d.into_arg_os_string
  | .WithValue _ d (.CanBeConcatenated _) => (str "@").isPrefixOf d.into_arg_os_string
  | .WithValue _ d (.CanBeSeparated _) => (str "@").isPrefixOf d.into_arg_os_string
  | _ => false

/-- One iteration of the classification loop of parse_arguments
(diab.rs lines 161-225): the safety check, the role dispatch by tag, and
the normalized append to the matching role bucket.  An error result is the
cannot cache reason together with its optional detail. -/
def processArg (st : LoopState) (arg : Argument) : Except (Str × Option Str) LoopState :=
  if atValueCheck arg then .error (str "@", none)
  else
    match arg.get_data with
    | some .TooHardFlag => .error (arg.flag_str.getD [], none)
    | some (.TooHard _) => .error (arg.flag_str.getD [], none)
    | some .DoCompilation => .ok { st with compilation := true }
    | some (.Output p) => .ok { st with output_arg := some p }
    | some (.PreprocessorArgument _) =>
      .ok { st with preprocessor_args := st.preprocessor_args ++ normalizedTokensOf arg }
    | some .PreprocessorArgumentFlag =>
      .ok { st with preprocessor_args := st.preprocessor_args ++ normalizedTokensOf arg }
    | some (.PreprocessorArgumentPath _) =>
      .ok { st with preprocessor_args := st.preprocessor_args ++ normalizedTokensOf arg }
    | some (.PassThrough _) =>
      .ok { st with common_args := st.common_args ++ normalizedTokensOf arg }
    | none =>
      match arg with
      | .Raw v =>
        .ok { st with multiple_input := st.multiple_input || st.input_arg.isSome,
                      input_arg := some v }
      | .UnknownFlag _ =>
        .ok { st with common_args := st.common_args ++ normalizedTokensOf arg }
      | _ => .ok st

/-- The classification loop over the sequence of classified arguments; a
parse error of the matcher folds into cannot cache with reason
argument parse and the error text as detail (try_or_cannot_cache at
diab.rs line 162). -/
def runLoop : LoopState → List (Except Str Argument) → Except (Str × Option Str) LoopState
  | st, [] => .ok st
  | _, .error e :: _ => .error (str "argument parse", some e)
  | st, .ok a :: rest =>
    match processArg st a with
    | .error r => .error r
    | .ok st2 => runLoop st2 rest

/-- The final verdict computed after the loop (diab.rs lines 227-264): no
compilation flag gives not a compilation; then multiple inputs, a missing
input and an unknown source language each give cannot cache; otherwise the
output defaults to the input with its extension replaced by o and the
verdict is ok with the populated record, whose outputs map has the single
entry obj. -/
def finishParse (st : LoopState) : CompilerArguments :=
  if st.compilation = false then .NotCompilation
  else if st.multiple_input = true then .CannotCache (str "multiple input files") none
  else
    match st.input_arg with
    | none => .CannotCache (str "no input file") none
    | some input =>
      match Language.from_file_name input with
      | none => .CannotCache (str "unknown source language") none
      | some language =>
        let output : Str :=
          match st.output_arg with
          | some p => p
          | none => withExtension input (str "o")
        .Ok { input := input, language := language,
              outputs := [(str "obj", output)],
              preprocessor_args := st.preprocessor_args,
              common_args := st.common_args }

/-- parse_arguments of diab.rs lines 142-265 applied to an already expanded
token sequence: classify the tokens against ARGS and fold them through the
classification loop. -/
def parse_arguments_core (tokens : List Str) : CompilerArguments :=
  match runLoop initialState (argsIterAll tokens) with
  | .error (r, e) => .CannotCache r e
  | .ok st => finishParse st

/-- parse_arguments of diab.rs composed with the indirect-argument
expander, as at line 159; none means the expansion fuel ran out. -/
def parse_arguments (fs : Str → Option Str) (arguments : List Str) (cwd : Str)
    (fuel : Nat) : Option CompilerArguments :=
  (expandAll fs cwd fuel arguments).map parse_arguments_core

/-- A filesystem on which every open or read fails. -/
def noFiles : Str → Option Str := fun _ => none

/-- Modelled from the spec (section 4.5): the compile command descriptor. -/
structure CompileCommand where
  executable : Str
  arguments : List Str
  env_vars : List (Str × Str)
  cwd : Str
  deriving DecidableEq, Repr

/-- Modelled from the spec: the cacheability marker. -/
inductive Cacheable
  | Yes
  | No
  deriving DecidableEq, Repr

/-- generate_compile_commands of diab.rs lines 293-323: fails with a
structural error when the outputs map has no obj entry; otherwise builds
the argument list compile flag, input, output flag, output path,
preprocessor bucket, common bucket, and returns the constant cacheable
marker.  The dist command (always None at line 322) is omitted. -/
def generate_compile_commands (executable : Str) (pa : ParsedArguments) (cwd : Str)
    (env_vars : List (Str × Str)) : Except Str (CompileCommand × Cacheable) :=
  match pa.outputs.lookup (str "obj") with
  | none => .error (str "Missing object file output")
  | some out_file =>
    .ok ({ executable := executable,
           arguments := [str "-c", pa.input, str "-o", out_file]
             ++ pa.preprocessor_args ++ pa.common_args,
           env_vars := env_vars, cwd := cwd }, .Yes)

/-! Checks replicating the unit tests of src/src/compiler/diab.rs
(test_parse_arguments_simple through test_compile_simple), validating the
embedding against the behavior the source pins down. -/

example : parse_arguments_core [str "-c", str "foo.c", str "-o", str "foo.o"] =
    .Ok { input := str "foo.c", language := .C,
          outputs := [(str "obj", str "foo.o")],
          preprocessor_args := [], common_args := [] } := rfl

example : parse_arguments_core [str "-c", str "foo.c"] =
    .Ok { input := str "foo.c", language := .C,
          outputs := [(str "obj", str "foo.o")],
          preprocessor_args := [], common_args := [] } := rfl

example : parse_arguments_core
      [str "-c", str "foo.cc", str "-fabc", str "-o", str "foo.o", str "-mxyz"] =
    .Ok { input := str "foo.cc", language := .Cxx,
          outputs := [(str "obj", str "foo.o")],
          preprocessor_args := [], common_args := [str "-fabc", str "-mxyz"] } := rfl

example : parse_arguments_core
      [str "-c", str "foo.cxx", str "-fabc", str "-I", str "include",
       str "-o", str "foo.o", str "-include", str "file"] =
    .Ok { input := str "foo.cxx", language := .Cxx,
          outputs := [(str "obj", str "foo.o")],
          preprocessor_args := [str "-Iinclude", str "-include", str "file"],
          common_args := [str "-fabc"] } := rfl

example : parse_arguments_core
      [str "-c", str "foo.c", str "-fabc", str "-Xmake-dependency",
       str "-Xmake-dependency-canonicalize-path-off",
       str "-Xmake-dependency-savefile=bar", str "-Xmake-dependency-target=foo",
       str "-o", str "foo.o"] =
    .Ok { input := str "foo.c", language := .C,
          outputs := [(str "obj", str "foo.o")],
          preprocessor_args :=
            [str "-Xmake-dependency", str "-Xmake-dependency-canonicalize-path-off",
             str "-Xmake-dependency-savefile=bar", str "-Xmake-dependency-target=foo"],
          common_args := [str "-fabc"] } := rfl

example : parse_arguments_core [] = .NotCompilation := rfl

example : parse_arguments_core [str "-o", str "foo"] = .NotCompilation := rfl

example : parse_arguments_core
      [str "-c", str "foo.c", str "-o", str "foo.o", str "bar.c"] =
    .CannotCache (str "multiple input files") none := rfl

example : parse_arguments_core
      [str "-shared", str "foo.o", str "-o", str "foo.so", str "bar.o"] =
    .NotCompilation := rfl

example : parse_arguments_core [str "-##", str "-c", str "foo.c"] =
    .CannotCache (str "-##") none := rfl

example : parse_arguments_core [str "-###", str "-c", str "foo.c"] =
    .CannotCache (str "-###") none := rfl

example : parse_arguments noFiles [str "-@@foo"] (str ".") 2 =
    some (.CannotCache (str "-@") none) := rfl

example : parse_arguments noFiles [str "-@E=foo"] (str ".") 2 =
    some (.CannotCache (str "-@") none) := rfl

example : parse_arguments noFiles [str "-@O+foo"] (str ".") 2 =
    some (.CannotCache (str "-@") none) := rfl

example : parse_arguments noFiles [str "-@/tmp/foo"] (str ".") 2 =
    some (.CannotCache (str "-@") none) := rfl

example : parse_arguments
      (fun p => if p = str "/t/foo" then some (str "-c foo.c -o foo.o") else none)
      [str "-@/t/foo"] (str "/t") 9 =
    some (.Ok { input := str "foo.c", language := .C,
                outputs := [(str "obj", str "foo.o")],
                preprocessor_args := [], common_args := [] }) := rfl

example : generate_compile_commands (str "/usr/bin/dcc")
      { input := str "foo.c", language := .C,
        outputs := [(str "obj", str "foo.o")],
        preprocessor_args := [], common_args := [] }
      (str "/tmp") [] =
    .ok ({ executable := str "/usr/bin/dcc",
           arguments := [str "-c", str "foo.c", str "-o", str "foo.o"],
           env_vars := [], cwd := str "/tmp" }, .Yes) := rfl

/-! Helper lemmas shared by the claim theorems. -/

/-- The classification loop splits over list append. -/
theorem runLoop_append (st : LoopState) (xs ys : List (Except Str Argument)) :
    runLoop st (xs ++ ys) =
      match runLoop st xs with
      | .error r => .error r
      | .ok st2 => runLoop st2 ys := by
  induction xs generalizing st with
  | nil => rfl
  | cons x xs ih =>
    cases x with
    | error e => rfl
    | ok a =>
      show runLoop st (.ok a :: (xs ++ ys)) = _
      simp only [runLoop]
      cases processArg st a with
      | error r => rfl
      | ok st2 => exact ih st2

/-- Shape of the record built by a successful final verdict. -/
theorem finishParse_ok (st : LoopState) (pa : ParsedArguments)
    (h : finishParse st = .Ok pa) :
    st.compilation = true ∧ st.multiple_input = false ∧
    ∃ input language, st.input_arg = some input ∧
      Language.from_file_name input = some language ∧
      pa.input = input ∧ pa.language = language ∧
      pa.preprocessor_args = st.preprocessor_args ∧
      pa.common_args = st.common_args ∧
      pa.outputs = [(str "obj",
        match st.output_arg with
        | some p => p
        | none => withExtension input (str "o"))] := by
  unfold finishParse at h
  split at h
  · exact absurd h (by simp)
  next hc =>
  split at h
  · exact absurd h (by simp)
  next hm =>
  split at h
  · exact absurd h (by simp)
  next input hin =>
  split at h
  · exact absurd h (by simp)
  next language hl =>
  injection h with h2
  subst h2
  exact ⟨by revert hc; cases st.compilation <;> simp,
         by revert hm; cases st.multiple_input <;> simp,
         input, language, hin, hl, rfl, rfl, rfl, rfl, rfl⟩

/-! Claim theorems. -/

/-- C1, counterexample: on the input -I @foo the attached value @foo is
observed in separated style, and parse_arguments aborts with the reason
"@" (diab.rs line 172), not the reason "-@" the claim states. -/
theorem c1_counterexample :
    parse_arguments_core [str "-I", str "@foo"] = .CannotCache (str "@") none ∧
    str "@" ≠ str "-@" := ⟨rfl, by decide⟩

/-- C1 (amended): a classified argument whose attached value begins with @
makes parse_arguments fail immediately with verdict cannot cache and
reason "@" when the observed attachment style is separated,
may-be-separated or may-be-concatenated; an argument whose observed style
is concatenated is exempt from the check (diab.rs lines 167-181): the
concatenated -Xmake-dependency-savefile=@x passes through and the
invocation parses ok. -/
theorem c1_amended :
    (∀ (st : LoopState) (s : Str) (d : ArgData),
      (str "@").isPrefixOf d.into_arg_os_string = true →
      processArg st (.WithValue s d .Separated) = .error (str "@", none) ∧
      (∀ c, processArg st (.WithValue s d (.CanBeSeparated c)) = .error (str "@", none)) ∧
      (∀ c, processArg st (.WithValue s d (.CanBeConcatenated c)) = .error (str "@", none))) ∧
    parse_arguments_core [str "-c", str "foo.c", str "-Xmake-dependency-savefile=@x"] =
      .Ok { input := str "foo.c", language := .C,
            outputs := [(str "obj", str "foo.o")],
            preprocessor_args := [str "-Xmake-dependency-savefile=@x"],
            common_args := [] } := by
  refine ⟨fun st s d h => ⟨?_, fun c => ?_, fun c => ?_⟩, rfl⟩ <;>
    simp [processArg, atValueCheck, h]

/-- C1, witness for the amended theorem at a concrete separated-style
argument. -/
theorem c1_witness :
    processArg initialState
        (.WithValue (str "-I") (.PreprocessorArgumentPath (str "@foo")) (.CanBeSeparated none)) =
      .error (str "@", none) :=
  (c1_amended.1 initialState (str "-I") (.PreprocessorArgumentPath (str "@foo"))
    (by decide)).2.1 none

/-- C2, counterexample: the claimed longest-first ordering fails on the
very first two entries of ARGS: the flag "-" (index 0) is a proper prefix
of "-##" (index 1) yet the shorter one appears first. -/
theorem c2_counterexample : ¬ claimC2 := by
  intro h
  exact absurd (h ⟨0, by decide⟩ ⟨1, by decide⟩ (by decide)) (by decide)

/-- C2 (amended): in ARGS, whenever one entry is a proper prefix of
another, the entry with the shorter flag text appears earlier: no flag
text is a proper prefix of an earlier entry's flag text (the table is
ordered lexicographically ascending, shortest-first on overlaps). -/
theorem c2_amended :
    ∀ i j : Fin flagTexts.length, i < j →
      properPrefixOf (flagTexts.get j) (flagTexts.get i) = false := by decide

/-- C2, witness for the amended theorem at the overlapping pair
("-", "-##"). -/
theorem c2_witness :
    properPrefixOf (flagTexts.get ⟨1, by decide⟩) (flagTexts.get ⟨0, by decide⟩) = false :=
  c2_amended ⟨0, by decide⟩ ⟨1, by decide⟩ (by decide)

/-- C3: a token sequence whose classification loop completes without a
cannot-cache abort and never sets the compilation flag yields the verdict
not a compilation (diab.rs lines 227-230), before any input-file check;
in particular -o foo alone is not a compilation. -/
theorem c3 :
    (∀ (toks : List Str) (st : LoopState),
      runLoop initialState (argsIterAll toks) = .ok st →
      st.compilation = false →
      parse_arguments_core toks = .NotCompilation) ∧
    parse_arguments_core [str "-o", str "foo"] = .NotCompilation := by
  refine ⟨fun toks st h hc => ?_, rfl⟩
  unfold parse_arguments_core
  rw [h]
  show finishParse st = _
  unfold finishParse
  rw [if_pos hc]

/-- C3, witness at the input -o foo. -/
theorem c3_witness : parse_arguments_core [str "-o", str "foo"] = .NotCompilation :=
  c3.1 [str "-o", str "foo"]
    { common_args := [], compilation := false, input_arg := none,
      multiple_input := false, output_arg := some (str "foo"), preprocessor_args := [] }
    rfl rfl

/-- C6, counterexample: the argument -Xmake-dependency-savefile=bar has an
attached value and a flag text longer than two characters, yet it is
appended to the preprocessor bucket as one concatenated token, not as the
two tokens flag then value (pinned by the src test
test_parse_arguments_preprocessor_args). -/
theorem c6_counterexample :
    parse_arguments_core [str "-c", str "foo.c", str "-Xmake-dependency-savefile=bar"] =
      .Ok { input := str "foo.c", language := .C,
            outputs := [(str "obj", str "foo.o")],
            preprocessor_args := [str "-Xmake-dependency-savefile=bar"],
            common_args := [] } ∧
    [str "-Xmake-dependency-savefile=bar"] ≠
      [str "-Xmake-dependency-savefile", str "bar"] := ⟨rfl, by decide⟩

/-- C6 (amended): the two-character rule re-spells only arguments whose
observed attachment style is flexible: a may-be-separated or
may-be-concatenated argument is appended as one concatenated token when
the flag text is exactly two characters and as two tokens otherwise; an
argument observed in a fixed style keeps its observed spelling — fixed
separated is appended as two tokens and fixed concatenated as one token
with its declared separator, whatever the flag length. -/
theorem c6_amended :
    ∀ (s : Str) (d : ArgData) (c : Option Char),
      normalizedTokensOf (.WithValue s d .Separated) = [s, d.into_arg_os_string] ∧
      normalizedTokensOf (.WithValue s d (.Concatenated c)) =
        [s ++ sepMark c d.into_arg_os_string] ∧
      normalizedTokensOf (.WithValue s d (.CanBeSeparated c)) =
        (if s.length == 2 then [s ++ sepMark c d.into_arg_os_string]
         else [s, d.into_arg_os_string]) ∧
      normalizedTokensOf (.WithValue s d (.CanBeConcatenated c)) =
        (if s.length == 2 then [s ++ sepMark c d.into_arg_os_string]
         else [s, d.into_arg_os_string]) := by
  intro s d c
  refine ⟨?_, ?_, ?_, ?_⟩ <;>
    cases h : s.length == 2 <;>
      simp [normalizedTokensOf, normFor, Argument.flag_str, Argument.normalize,
            Argument.iter_os_strings, h]

/-- C8, counterexample: the sequence -I @x -E contains the
forces-non-cacheable flag -E, yet parse_arguments returns cannot cache
with reason "@" (the earlier safety-check abort on the value @x), not the
flag text -E the claim requires. -/
theorem c8_counterexample :
    (argsIterAll [str "-I", str "@x", str "-E"]).any
        (fun x => match x with
          | .ok a =>
            (match a.get_data with
             | some .TooHardFlag => true
             | some (.TooHard _) => true
             | _ => false)
          | .error _ => false) = true ∧
    parse_arguments_core [str "-I", str "@x", str "-E"] = .CannotCache (str "@") none ∧
    str "@" ≠ str "-E" := ⟨rfl, rfl, by decide⟩

/-- C8 (amended): an argument tagged as forcing non-cacheability aborts
the classification loop with its own flag text as the cannot-cache reason
whenever the arguments before it were processed without an abort (diab.rs
lines 183-186); so the flag's text is the reason whenever the
forces-non-cacheable argument is the first disqualifier encountered, even
alongside a valid compile flag and input file, as on -## -c foo.c. -/
theorem c8_amended :
    (∀ (st st2 : LoopState) (ys zs : List (Except Str Argument)) (s : Str) (arg : Argument),
      runLoop st ys = .ok st2 →
      (arg = .Flag s .TooHardFlag ∨
        ∃ v d, arg = .WithValue s (.TooHard v) (.Concatenated d)) →
      runLoop st (ys ++ .ok arg :: zs) = .error (s, none)) ∧
    parse_arguments_core [str "-##", str "-c", str "foo.c"] =
      .CannotCache (str "-##") none := by
  refine ⟨fun st st2 ys zs s arg h harg => ?_, rfl⟩
  rw [runLoop_append, h]
  rcases harg with h1 | ⟨v, d, h1⟩ <;> subst h1 <;>
    simp [runLoop, processArg, atValueCheck, Argument.get_data, Argument.flag_str]

/-- C8, witness: the dry-run flag -### aborts with its own text even when
a compile flag follows. -/
theorem c8_witness :
    runLoop initialState
        ([] ++ .ok (.Flag (str "-###") .TooHardFlag) ::
          [.ok (.Flag (str "-c") .DoCompilation)]) = .error (str "-###", none) :=
  c8_amended.1 initialState initialState [] [.ok (.Flag (str "-c") .DoCompilation)]
    (str "-###") (.Flag (str "-###") .TooHardFlag) rfl (Or.inl rfl)

/-- C10: on a token sequence in which no token starts with -@ the expander
is the identity: for every filesystem (hence independent of any file read)
it yields exactly the input tokens, unchanged and in order. -/
theorem c10 :
    ∀ (fs : Str → Option Str) (cwd : Str) (args : List Str),
      (∀ a ∈ args, (str "-@").isPrefixOf a = false) →
      expandAll fs cwd (args.length + 1) args = some args := by
  intro fs cwd args
  induction args with
  | nil => intro h; rfl
  | cons a rest ih =>
    intro h
    have ha := h a (List.mem_cons_self a rest)
    have hr := ih (fun b hb => h b (List.mem_cons_of_mem a hb))
    simp [expandAll, ha, hr]

/-- C10, witness on a concrete token list with an adversarial filesystem
that would offer contents for every path. -/
theorem c10_witness :
    expandAll (fun _ => some (str "x y")) (str ".") 3 [str "-c", str "foo.c"] =
      some [str "-c", str "foo.c"] :=
  c10 (fun _ => some (str "x y")) (str ".") [str "-c", str "foo.c"] (by decide)

/-- One expander step on a -@name token, by case. -/
theorem expandAll_atStep (fs : Str → Option Str) (cwd : Str) (n : Nat)
    (name : Str) (rest : List Str) :
    expandAll fs cwd (n + 1) ((str "-@" ++ name) :: rest) =
      (if atExempt name then (expandAll fs cwd n rest).map ((str "-@" ++ name) :: ·)
       else
         match fs (joinPath cwd name) with
         | none => (expandAll fs cwd n rest).map ((str "-@" ++ name) :: ·)
         | some contents =>
           if hasQuote contents then
             (expandAll fs cwd n rest).map ((str "-@" ++ name) :: ·)
           else expandAll fs cwd n (splitWhitespace contents ++ rest)) := by
  have hpre : (str "-@").isPrefixOf (str "-@" ++ name) = true := by
    cases name <;> rfl
  have hdrop : (str "-@" ++ name).drop 2 = name := rfl
  simp only [expandAll, hpre, if_true, hdrop]

/-- C4: each step of the expander either passes the head token through
unchanged in front of the expansion of the remaining stack (a token not of
the form -@name; a name starting with E, O or @; an unreadable file; file
contents containing a quote character) or, in the expansion case, replaces
the -@name token by the whitespace-split contents of the file name
resolved against the working directory, pushed in front of the remaining
stack for recursive processing — so expansion is order-preserving and
recursive exactly as claimed. -/
theorem c4 :
    ∀ (fs : Str → Option Str) (cwd : Str) (n : Nat) (arg : Str) (rest : List Str),
      ((str "-@").isPrefixOf arg = false →
        expandAll fs cwd (n + 1) (arg :: rest) =
          (expandAll fs cwd n rest).map (arg :: ·)) ∧
      (∀ name, arg = str "-@" ++ name →
        (atExempt name = true →
          expandAll fs cwd (n + 1) (arg :: rest) =
            (expandAll fs cwd n rest).map (arg :: ·)) ∧
        (atExempt name = false → fs (joinPath cwd name) = none →
          expandAll fs cwd (n + 1) (arg :: rest) =
            (expandAll fs cwd n rest).map (arg :: ·)) ∧
        (∀ contents, atExempt name = false →
          fs (joinPath cwd name) = some contents → hasQuote contents = true →
          expandAll fs cwd (n + 1) (arg :: rest) =
            (expandAll fs cwd n rest).map (arg :: ·)) ∧
        (∀ contents, atExempt name = false →
          fs (joinPath cwd name) = some contents → hasQuote contents = false →
          expandAll fs cwd (n + 1) (arg :: rest) =
            expandAll fs cwd n (splitWhitespace contents ++ rest))) := by
  intro fs cwd n arg rest
  constructor
  · intro h
    simp [expandAll, h]
  · intro name hn
    subst hn
    refine ⟨fun he => ?_, fun he hf => ?_, fun contents he hf hq => ?_,
            fun contents he hf hq => ?_⟩
    · rw [expandAll_atStep]; simp [he]
    · rw [expandAll_atStep]; simp [he, hf]
    · rw [expandAll_atStep]; simp [he, hf, hq]
    · rw [expandAll_atStep]; simp [he, hf, hq]

/-- C4, witness: a concrete expansion step replacing -@f by the split
contents of the file f in the working directory. -/
theorem c4_witness :
    expandAll (fun p => if p = str "./f" then some (str "a b") else none) (str ".") 3
        [str "-@f"] =
      expandAll (fun p => if p = str "./f" then some (str "a b") else none) (str ".") 2
        (splitWhitespace (str "a b") ++ []) :=
  ((c4 (fun p => if p = str "./f" then some (str "a b") else none) (str ".") 2
      (str "-@f") []).2 (str "f") rfl).2.2.2 (str "a b") rfl rfl rfl

/-- C5: on a successful parse in which no output argument was recorded,
the output path is the input path with its extension replaced by o, and
the outputs map is exactly the single entry keyed obj with that path
(diab.rs lines 245-251). -/
theorem c5 :
    ∀ (toks : List Str) (st : LoopState) (pa : ParsedArguments),
      runLoop initialState (argsIterAll toks) = .ok st →
      st.output_arg = none →
      parse_arguments_core toks = .Ok pa →
      pa.outputs = [(str "obj", withExtension pa.input (str "o"))] := by
  intro toks st pa h ho hp
  unfold parse_arguments_core at hp
  rw [h] at hp
  have hp2 : finishParse st = .Ok pa := hp
  obtain ⟨-, -, input, language, hin, hl, hpi, -, -, -, hout⟩ := finishParse_ok st pa hp2
  rw [ho] at hout
  rw [hout, hpi]

/-- C5, witness: -c foo.c records no output argument and defaults the
single obj entry to foo.o. -/
theorem c5_witness :
    ({ input := str "foo.c", language := .C,
       outputs := [(str "obj", str "foo.o")],
       preprocessor_args := [], common_args := [] } : ParsedArguments).outputs =
      [(str "obj",
        withExtension ({ input := str "foo.c", language := .C,
                         outputs := [(str "obj", str "foo.o")],
                         preprocessor_args := [],
                         common_args := [] } : ParsedArguments).input (str "o"))] :=
  c5 [str "-c", str "foo.c"]
    { common_args := [], compilation := true, input_arg := some (str "foo.c"),
      multiple_input := false, output_arg := none, preprocessor_args := [] }
    { input := str "foo.c", language := .C,
      outputs := [(str "obj", str "foo.o")],
      preprocessor_args := [], common_args := [] }
    rfl rfl rfl

/-- C9: generate_compile_commands errors exactly when the outputs map has
no obj entry; with an obj entry it succeeds with the argument list
compile flag, input, output flag, obj output, preprocessor bucket, common
bucket, and the constant cacheable marker; and it never errors on a record
produced by a successful parse_arguments. -/
theorem c9 :
    ∀ (exe cwd : Str) (env : List (Str × Str)) (pa : ParsedArguments),
      (pa.outputs.lookup (str "obj") = none ↔
        generate_compile_commands exe pa cwd env =
          .error (str "Missing object file output")) ∧
      (∀ out, pa.outputs.lookup (str "obj") = some out →
        generate_compile_commands exe pa cwd env =
          .ok ({ executable := exe,
                 arguments := [str "-c", pa.input, str "-o", out]
                   ++ pa.preprocessor_args ++ pa.common_args,
                 env_vars := env, cwd := cwd }, .Yes)) ∧
      (∀ (toks : List Str) (pa2 : ParsedArguments),
        parse_arguments_core toks = .Ok pa2 →
        ∃ cmd, generate_compile_commands exe pa2 cwd env = .ok (cmd, .Yes)) := by
  intro exe cwd env pa
  refine ⟨⟨fun h => ?_, fun h => ?_⟩, fun out h => ?_, fun toks pa2 hp => ?_⟩
  · unfold generate_compile_commands
    rw [h]
  · cases hl : pa.outputs.lookup (str "obj") with
    | none => rfl
    | some out =>
      unfold generate_compile_commands at h
      rw [hl] at h
      exact absurd h (by simp)
  · unfold generate_compile_commands
    rw [h]
  · cases hrl : runLoop initialState (argsIterAll toks) with
    | error r =>
      obtain ⟨r1, r2⟩ := r
      unfold parse_arguments_core at hp
      rw [hrl] at hp
      exact absurd hp (by simp)
    | ok st =>
      unfold parse_arguments_core at hp
      rw [hrl] at hp
      have hp2 : finishParse st = .Ok pa2 := hp
      obtain ⟨-, -, input, language, -, -, -, -, -, -, hout⟩ := finishParse_ok st pa2 hp2
      have hlk : pa2.outputs.lookup (str "obj") =
          some (match st.output_arg with
                | some p => p
                | none => withExtension input (str "o")) := by
        rw [hout]
        simp [List.lookup]
      unfold generate_compile_commands
      rw [hlk]
      exact ⟨_, rfl⟩

/-- C9, witness at a concrete record with an obj entry. -/
theorem c9_witness :
    generate_compile_commands (str "dcc")
        { input := str "foo.c", language := .C,
          outputs := [(str "obj", str "foo.o")],
          preprocessor_args := [str "-DX"], common_args := [str "-fabc"] }
        (str ".") [] =
      .ok ({ executable := str "dcc",
             arguments := [str "-c", str "foo.c", str "-o", str "foo.o"]
               ++ [str "-DX"] ++ [str "-fabc"],
             env_vars := [], cwd := str "." }, .Yes) :=
  (c9 (str "dcc") (str ".") []
    { input := str "foo.c", language := .C,
      outputs := [(str "obj", str "foo.o")],
      preprocessor_args := [str "-DX"], common_args := [str "-fabc"] }).2.1
    (str "foo.o") rfl

/-- C7, counterexample: the tokens -D followed by an empty token classify
as a flag-with-value argument with the empty attached value; normalization
produces the single token -D, which re-classifies as a value-taking flag
with no remaining value and fails to parse, so re-normalization does not
reproduce the same tokens. -/
theorem c7_counterexample :
    argsIterAll [str "-D", str ""] =
      [.ok (.WithValue (str "-D") (.PreprocessorArgument []) (.CanBeSeparated none))] ∧
    normalizedTokensOf
        (.WithValue (str "-D") (.PreprocessorArgument []) (.CanBeSeparated none)) =
      [str "-D"] ∧
    renormClassify (normalizedTokensOf
        (.WithValue (str "-D") (.PreprocessorArgument []) (.CanBeSeparated none))) ≠
      some (normalizedTokensOf
        (.WithValue (str "-D") (.PreprocessorArgument []) (.CanBeSeparated none))) :=
  ⟨rfl, rfl, by decide⟩

/-- C7 (amended): for every flag-with-value argument the matcher can
produce from the declared table whose value is nonempty, re-classifying
the token(s) produced by normalization yields exactly one classified
argument whose normalization yields exactly the same token(s) again.  The
nonemptiness restriction is what the counterexample forces: an empty
attached value on a two-character flag normalizes to the bare flag token,
which re-classifies as a flag still expecting a value. -/
theorem c7_amended :
    ∀ i ∈ ARGS, ∀ (obs : ArgDisposition) (v : Str) (arg : Argument),
      producedArg i obs v = some arg → v ≠ [] →
      renormClassify (normalizedTokensOf arg) = some (normalizedTokensOf arg) := by
  intro i hi obs v arg hp hv
  fin_cases hi <;>
    simp only [producedArg, observedForms] at hp <;>
    first
      | (split at hp
         next hmem =>
           injection hp with hp
           subst hp
           simp only [List.mem_cons, List.mem_singleton, List.not_mem_nil,
                      or_false] at hmem
           rcases hmem with rfl | rfl <;>
             (cases v with
              | nil => exact absurd rfl hv
              | cons ch v2 => rfl)
         next => exact absurd hp (by simp))
      | exact absurd hp (by simp)

/-- C7, witness at the concrete -@ argument with value x. -/
theorem c7_witness :
    renormClassify (normalizedTokensOf
        (.WithValue (str "-@") (.TooHard (str "x")) (.Concatenated none))) =
      some (normalizedTokensOf
        (.WithValue (str "-@") (.TooHard (str "x")) (.Concatenated none))) :=
  c7_amended (.takeArg (str "-@") (.Concatenated none) .TooHard)
    (List.Mem.tail _ (List.Mem.tail _ (List.Mem.tail _ (List.Mem.head _))))
    (.Concatenated none) (str "x")
    (.WithValue (str "-@") (.TooHard (str "x")) (.Concatenated none))
    rfl (by decide)

end Diab
